import Mathlib

/-!
Shallow embedding of the iGibson object-state engine slice
(`gibson2/object_states/*.py`, `gibson2/simulator.py`,
`gibson2/scenes/igibson_indoor_scene.py`).

Real-number quantities (positions, bounding boxes, timesteps, the 0.9
clean threshold) are modelled over `ℚ`; the Python source uses IEEE
doubles, but every comparison settled below is far from the rounding
scale, so the rational model is faithful at every input used.
-/

namespace IGibson

/-- A 3-d vector of rational coordinates (a `numpy` 3-vector in the source). -/
structure Vec3 where
  x : ℚ
  y : ℚ
  z : ℚ
  deriving Repr, DecidableEq

/-- An axis-aligned bounding box, stored as the source stores it:
`aabb[0]` is the lower corner, `aabb[1]` the upper corner. -/
structure Aabb where
  lo : Vec3
  hi : Vec3
  deriving Repr, DecidableEq

/-- The AABB inflation performed inline in `Dirty.update` and
`Stained.update` (`dirty.py` lines 42-48, `stained.py` lines 59-65).
The source mutates the minimum first and then computes the maximum's
inflation from the already-shifted minimum:
`xmin -= (xmax - xmin) * 0.1; xmax += (xmax - xmin) * 0.1`. -/
def inflateAabb (b : Aabb) : Aabb :=
  let xmin := b.lo.x - (b.hi.x - b.lo.x) * (1/10)
  let xmax := b.hi.x + (b.hi.x - xmin) * (1/10)
  let ymin := b.lo.y - (b.hi.y - b.lo.y) * (1/10)
  let ymax := b.hi.y + (b.hi.y - ymin) * (1/10)
  let zmin := b.lo.z - (b.hi.z - b.lo.z) * (1/10)
  let zmax := b.hi.z + (b.hi.z - zmin) * (1/10)
  ⟨⟨xmin, ymin, zmin⟩, ⟨xmax, ymax, zmax⟩⟩

/-- The inflation as the specification describes it: on each axis, both the
minimum and the maximum move outward by exactly 10% of that axis's
original extent.  Stated for comparison with `inflateAabb`. -/
def inflateAabbSpec (b : Aabb) : Aabb :=
  ⟨⟨b.lo.x - (b.hi.x - b.lo.x) * (1/10),
    b.lo.y - (b.hi.y - b.lo.y) * (1/10),
    b.lo.z - (b.hi.z - b.lo.z) * (1/10)⟩,
   ⟨b.hi.x + (b.hi.x - b.lo.x) * (1/10),
    b.hi.y + (b.hi.y - b.lo.y) * (1/10),
    b.hi.z + (b.hi.z - b.lo.z) * (1/10)⟩⟩

/-- Strict containment test used on particle positions in `Dirty.update`
and `Stained.update`: `pos[i] > min and pos[i] < max` on all three axes. -/
def strictlyInsideAabb (p : Vec3) (b : Aabb) : Bool :=
  decide (b.lo.x < p.x) && decide (p.x < b.hi.x) &&
  decide (b.lo.y < p.y) && decide (p.y < b.hi.y) &&
  decide (b.lo.z < p.z) && decide (p.z < b.hi.z)

/-- Modelled from the spec: `get_aabb_center` of
`gibson2/external/pybullet_tools/utils.py` is not under `src/`; the spec
reads "A's bounding-volume center". -/
def aabbCenter (b : Aabb) : Vec3 :=
  ⟨(b.lo.x + b.hi.x) / 2, (b.lo.y + b.hi.y) / 2, (b.lo.z + b.hi.z) / 2⟩

/-- Modelled from the spec: `get_aabb_extent` of
`gibson2/external/pybullet_tools/utils.py` is not under `src/`; the
extent of a box is its upper corner minus its lower corner, per axis. -/
def aabbExtent (b : Aabb) : Vec3 :=
  ⟨b.hi.x - b.lo.x, b.hi.y - b.lo.y, b.hi.z - b.lo.z⟩

/-- Modelled from the spec: `get_aabb_volume` of
`gibson2/external/pybullet_tools/utils.py` is not under `src/`; the
volume is the product of the three extents. -/
def aabbVolume (b : Aabb) : ℚ :=
  (aabbExtent b).x * (aabbExtent b).y * (aabbExtent b).z

/-- Modelled from the spec: `aabb_contains_point` of
`gibson2/external/pybullet_tools/utils.py` is not under `src/`; the spec
reads "lies within B's bounding volume", inclusive on all three axes. -/
def aabbContainsPoint (p : Vec3) (b : Aabb) : Bool :=
  decide (b.lo.x ≤ p.x) && decide (p.x ≤ b.hi.x) &&
  decide (b.lo.y ≤ p.y) && decide (p.y ≤ b.hi.y) &&
  decide (b.lo.z ≤ p.z) && decide (p.z ≤ b.hi.z)

/-- The number of axes on which the first extent is ≤ the second:
`np.sum(np.less_equal(extentA, extentB))` in `inside.py`. -/
def countExtentLe (a b : Vec3) : ℕ :=
  (if a.x ≤ b.x then 1 else 0) + (if a.y ≤ b.y then 1 else 0) +
  (if a.z ≤ b.z then 1 else 0)

/-- `Inside.get_value` (`inside.py` lines 20-35), as a function of the two
objects' AABBs (`aabbA` belongs to the queried object A, `aabbB` to the
other object B). -/
def insideGetValue (aabbA aabbB : Aabb) : Bool :=
  let center_inside := aabbContainsPoint (aabbCenter aabbA) aabbB
  let volume_lesser := decide (aabbVolume aabbA < aabbVolume aabbB)
  let two_dimensions_lesser :=
    decide (2 ≤ countExtentLe (aabbExtent aabbA) (aabbExtent aabbB))
  let above := center_inside && decide (aabbB.hi.z ≤ aabbA.lo.z)
  (center_inside && volume_lesser && two_dimensions_lesser) || above

/-- The "inside" relation as the specification words it: clause (b)
requires only that A's center lie within B's footprint (the x and y
ranges), not within the full box.  Stated for comparison with
`insideGetValue`. -/
def insideSpecPred (aabbA aabbB : Aabb) : Bool :=
  let c := aabbCenter aabbA
  let center_inside := aabbContainsPoint c aabbB
  let volume_lesser := decide (aabbVolume aabbA < aabbVolume aabbB)
  let two_dimensions_lesser :=
    decide (2 ≤ countExtentLe (aabbExtent aabbA) (aabbExtent aabbB))
  let footprint :=
    decide (aabbB.lo.x ≤ c.x) && decide (c.x ≤ aabbB.hi.x) &&
    decide (aabbB.lo.y ≤ c.y) && decide (c.y ≤ aabbB.hi.y)
  let above := footprint && decide (aabbB.hi.z ≤ aabbA.lo.z)
  (center_inside && volume_lesser && two_dimensions_lesser) || above

end IGibson

namespace IGibson

/-- A dirt/stain particle: a position plus an `active` flag.
`stash_particle` ("deactivate without destroying", per the spec's
description of `gibson2/objects/particles.py`, which is not under `src/`)
clears the flag and never removes the particle. -/
structure Particle where
  pos : Vec3
  active : Bool
  deriving Repr, DecidableEq

/-- Modelled from the spec: `stash_particle` of
`gibson2/objects/particles.py` is not under `src/`; the spec reads
"stash all particles, i.e. deactivate without destroying". -/
def stashParticle (p : Particle) : Particle :=
  { p with active := false }

/-- `get_num_active` of the particle system: the number of particles whose
`active` flag is set. -/
def numActive (ps : List Particle) : ℕ :=
  (ps.filter (·.active)).length

/-- A scene object as seen by the cleaning sweep: whether it is registered
under the `CleaningTool` state in the scene's `objects_by_state` index,
whether it carries a `Soaked` state and that state's boolean value
(`none` when `Soaked` is absent from `obj.states`), and the value of its
`AABB` state. -/
structure SceneObj where
  hasCleaningTool : Bool
  soaked : Option Bool
  aabb : Aabb
  deriving Repr, DecidableEq

/-- A scene: its object list.  `InteractiveIndoorScene.get_objects_with_state`
(`igibson_indoor_scene.py` lines 260-262) returns the objects registered
under a state; for `CleaningTool` that is exactly the objects carrying it. -/
structure Scene where
  objs : List SceneObj
  deriving Repr, DecidableEq

/-- `scene.get_objects_with_state(CleaningTool)`. -/
def getCleaningTools (s : Scene) : List SceneObj :=
  s.objs.filter (·.hasCleaningTool)

/-- The wet-tool filter of `Stained.update` (`stained.py` lines 46-51):
keep a cleaning tool only when `Soaked in tool.states` and
`tool.states[Soaked].get_value()`. -/
def wetCleaningTools (s : Scene) : List SceneObj :=
  (getCleaningTools s).filter (fun t => t.soaked.getD false)

/-- One tool's pass over the particle list: any particle whose position is
strictly inside the tool's inflated AABB is stashed.  In the source the
loop runs over `get_active_particles()` and calls `stash_particle`;
since stashing only clears the `active` flag, mapping over all particles
is the same function. -/
def sweepTool (tool : SceneObj) (ps : List Particle) : List Particle :=
  ps.map (fun p =>
    if p.active && strictlyInsideAabb p.pos (inflateAabb tool.aabb) then
      stashParticle p
    else p)

/-- The full cleaning sweep: each qualifying tool in turn sweeps the
particle list. -/
def sweepAll (tools : List SceneObj) (ps : List Particle) : List Particle :=
  tools.foldl (fun acc tool => sweepTool tool acc) ps

/-- `CLEAN_THRESHOLD = 0.9` (`dirty.py`, `stained.py`). -/
def CLEAN_THRESHOLD : ℚ := 9/10

/-- The recomputation of the boolean value at the end of `Dirty.update`
and `Stained.update`: `get_num_active() > get_num() * CLEAN_THRESHOLD`. -/
def thresholdValue (ps : List Particle) : Bool :=
  decide ((numActive ps : ℚ) > (ps.length : ℚ) * CLEAN_THRESHOLD)

/-- The `Stained` state (`stained.py`): its boolean value, the value it had
before the last update, and its lazily created particle system (`None`
until the first update while stained). -/
structure StainedState where
  value : Bool
  prev_value : Bool
  stain : Option (List Particle)
  deriving Repr, DecidableEq

/-- `Stained.update` (`stained.py` lines 27-73).  `fresh` stands for the
particle population a newly constructed `Dirt(self.obj)` would hold, and
`randomize` for `self.stain.randomize(self.obj)`'s repositioning; both
live in `gibson2/objects/particles.py`, outside `src/`, and are passed
in as parameters so the update itself stays a function of them. -/
def stainedUpdate (st : StainedState) (scene : Scene) (fresh : List Particle)
    (randomize : List Particle → List Particle) : StainedState :=
  if !st.value then st
  else
    let stain0 := st.stain.getD fresh
    let stain1 := if st.value && !st.prev_value then randomize stain0 else stain0
    let swept := sweepAll (wetCleaningTools scene) stain1
    { value := thresholdValue swept, prev_value := st.value, stain := some swept }

/-- `Stained.set_value` (`stained.py` lines 21-25): store the new value,
and when it is false stash every particle of `self.stain` — which, when
the stain was never created, dereferences `None` and raises
(`AttributeError`), modelled as `Except.error`. -/
def stainedSetValue (st : StainedState) (newValue : Bool) :
    Except String StainedState :=
  let st' := { st with value := newValue }
  if newValue then Except.ok st'
  else
    match st'.stain with
    | none => Except.error "AttributeError: NoneType object has no attribute particles"
    | some ps => Except.ok { st' with stain := some (ps.map stashParticle) }

/-- The `Dirty` state (`dirty.py`): its boolean value and its particle
system, created eagerly in the constructor. -/
structure DirtyState where
  value : Bool
  dust : List Particle
  deriving Repr, DecidableEq

/-- `Dirty.update` (`dirty.py` lines 28-55): sweep every cleaning tool
(no soaked requirement, no early return on the value), then recompute
the value from the active fraction. -/
def dirtyUpdate (st : DirtyState) (scene : Scene) : DirtyState :=
  let swept := sweepAll (getCleaningTools scene) st.dust
  { value := thresholdValue swept, dust := swept }

/-- The error type the spec calls `UnsupportedOperationError`; the source
realises it as the `NotImplementedError` raised by
`ContactBodies.set_value`. -/
inductive UnsupportedOperationError where
  | setNotSupported (msg : String)
  deriving Repr, DecidableEq

/-- The `ContactBodies` state: a caching-enabled derived state.  Modelled
from the spec for the cache fields: `CachingEnabledObjectState`
(`gibson2/object_states/object_state_base.py`) is not under `src/`; the
spec gives it a memoized value and a validity flag.  `α` is the type of
the computed contact-point list. -/
structure ContactBodiesState (α : Type) where
  cachedValue : Option α
  valid : Bool
  deriving Repr, DecidableEq

/-- `ContactBodies.set_value` (`contact_bodies.py` lines 10-12): raises
`NotImplementedError` unconditionally, before touching any field; the
pair returns the outcome together with the (unchanged) state. -/
def contactBodiesSetValue {α : Type} (st : ContactBodiesState α) (_newValue : α) :
    Except UnsupportedOperationError Unit × ContactBodiesState α :=
  (Except.error (.setNotSupported
      "ContactBodies state currently does not support setting."), st)

/-- The externally visible phases of one `Simulator.step()` call
(`simulator.py` lines 789-804): a pybullet physics substep
(`p.stepSimulation()`), one scheduler pass over all object states
(`self._non_physics_step()`, lines 702-710), and the renderer sync
(`self.sync()`). -/
inductive SimEvent where
  | physicsSubstep
  | schedulerPass
  | renderSync
  deriving Repr, DecidableEq

/-- `physics_timestep_num = forced_timestep if forced_timestep else
max(1, int(self.render_timestep / self.physics_timestep))`
(`simulator.py` lines 798-800).  A `forced` value of `0` is falsy in
Python and falls through to the computed count; `int()` on the positive
quotient truncates, i.e. floors. -/
def physicsTimestepNum (renderTimestep physicsTimestep : ℚ)
    (forced : Option ℕ) : ℕ :=
  match forced with
  | some k => if k ≠ 0 then k else max 1 (renderTimestep / physicsTimestep).floor.toNat
  | none => max 1 (renderTimestep / physicsTimestep).floor.toNat

/-- The event trace of one `Simulator.step()` call (non-VR path,
`simulator.py` lines 789-804): the loop body runs `p.stepSimulation()`
then `self._non_physics_step()`, `physics_timestep_num` times, and
`self.sync()` follows the loop. -/
def simulatorStep (renderTimestep physicsTimestep : ℚ)
    (forced : Option ℕ) : List SimEvent :=
  let n := physicsTimestepNum renderTimestep physicsTimestep forced
  (List.range n).flatMap
      (fun _ => [SimEvent.physicsSubstep, SimEvent.schedulerPass])
    ++ [SimEvent.renderSync]

/-- A state identifier (`'dirty'`, `'aabb'`, ...). -/
abbrev StateName := String

/-- The per-object state-map construction, `prepare_object_states`
(`factory.py` lines 115-146), abstracted over the registry data it
reads: `defaults` is `_DEFAULT_STATE_SET`, `abilityStates` is
`_ABILITY_TO_STATE_MAPPING`, and `deps` is each state class's
`get_dependencies()`.  `P` is the type of ability parameter
dictionaries. -/
structure Registry (P : Type) where
  defaults : List StateName
  abilityStates : StateName → List StateName
  deps : StateName → List StateName
  emptyParams : P

/-- The worklist loop of `prepare_object_states`: process each
`(state_name, params)` entry in order, record the key assigned into
`obj.states`, and append every required dependency.  In the source the
guard `if dependency not in state_names_and_params` compares a bare
state name against `(name, params)` tuples and is therefore always
true, so the dependencies are appended unconditionally; the loop still
terminates on an acyclic registry, which the `fuel` argument makes
explicit (`none` = fuel exhausted).  `acc` is the key list of the
`obj.states` dictionary: assigning an existing key again leaves the key
list unchanged, a fresh key is appended in insertion order. -/
def prepareLoop {P : Type} (reg : Registry P) :
    ℕ → List (StateName × P) → List StateName → Option (List StateName)
  | _, [], acc => some acc
  | 0, _ :: _, _ => none
  | fuel + 1, (s, _) :: rest, acc =>
      prepareLoop reg fuel
        (rest ++ (reg.deps s).map (fun d => (d, reg.emptyParams)))
        (if acc.contains s then acc else acc ++ [s])

/-- The initial worklist of `prepare_object_states` (`factory.py` lines
133-137): every default state with empty parameters, then each declared
ability's states carrying that ability's parameters. -/
def initialWorklist {P : Type} (reg : Registry P)
    (abilities : List (StateName × P)) : List (StateName × P) :=
  reg.defaults.map (fun s => (s, reg.emptyParams))
    ++ abilities.flatMap (fun ap => (reg.abilityStates ap.1).map (fun s => (s, ap.2)))

/-- `prepare_object_states` itself: run the worklist loop and return, in
insertion order, the keys written into `obj.states` (later duplicates
re-assign the same dictionary key, so membership in this list is
exactly membership in the final key set). -/
def prepareObjectStates {P : Type} (reg : Registry P)
    (abilities : List (StateName × P)) (fuel : ℕ) : Option (List StateName) :=
  prepareLoop reg fuel (initialWorklist reg abilities) []

/-- The states reachable from a set of seed names by following required
dependencies: the seeds themselves, closed under `reg.deps`.  This is
the "default states, plus ability-implied states, plus the transitive
closure of required dependencies" of the spec. -/
inductive ReachDep {P : Type} (reg : Registry P) (init : List StateName) :
    StateName → Prop where
  | base {s : StateName} : s ∈ init → ReachDep reg init s
  | step {s d : StateName} : ReachDep reg init s → d ∈ reg.deps s →
      ReachDep reg init d

/-- A dependency graph as `get_state_dependency_graph` (`factory.py`
lines 149-158) builds it: each registered state name paired with the
concatenation of its required and optional dependency identifiers.  The
concrete dependency lists live in the individual state classes, most of
which are not under `src/`, so the graph is kept abstract. -/
abbrev DepGraph := List (StateName × List StateName)

/-- Every dependency identifier mentioned by some entry. -/
def mentionedDeps (g : DepGraph) : List StateName :=
  g.flatMap (fun e => e.2)

/-- `nx.DiGraph(dependencies)` adds a node for every dependency identifier
that is not itself a key; such nodes have no outgoing edges.  This
normalisation appends those nodes with empty dependency lists. -/
def withDepNodes (g : DepGraph) : DepGraph :=
  g ++ ((mentionedDeps g).filter
      (fun d => !(g.map Prod.fst).contains d)).dedup.map (fun d => (d, []))

/-- An entry is ready once every one of its dependencies has been
emitted. -/
def readyEntry (out : List StateName) (e : StateName × List StateName) : Bool :=
  e.2.all (fun d => out.contains d)

/-- Modelled from the spec: `nx.algorithms.topological_sort` is
third-party and the state classes holding the edge lists are not under
`src/`; the spec reads "a deterministic total order such that for every
edge (A → B), B precedes A ... Fails with `CyclicDependencyError` ...
if the graph is not a DAG".  Kahn-style loop producing the reversed
order of `get_states_by_dependency_order` directly: repeatedly emit the
first remaining node whose dependencies were all emitted; `none` when
no node is ready (a cycle) or fuel runs out. -/
def topoLoop : ℕ → DepGraph → List StateName → Option (List StateName)
  | _, [], out => some out
  | 0, _ :: _, _ => none
  | fuel + 1, e :: rest, out =>
      match (e :: rest).find? (readyEntry out) with
      | none => none
      | some pick =>
          topoLoop fuel ((e :: rest).filter (fun x => x.1 ≠ pick.1))
            (out ++ [pick.1])

/-- `get_states_by_dependency_order` (`factory.py` lines 161-165):
the topological order of the dependency graph, reversed so that every
dependency precedes its dependents; `none` models the
`CyclicDependencyError` of the spec's taxonomy. -/
def getStatesByDependencyOrder (g : DepGraph) : Option (List StateName) :=
  topoLoop (withDepNodes g).length (withDepNodes g) []

/-- The edge relation of the dependency graph: `dependsOn g s d` when some
entry registers `s` with `d` among its (required or optional)
dependencies. -/
def dependsOn (g : DepGraph) (s d : StateName) : Prop :=
  ∃ ds, (s, ds) ∈ g ∧ d ∈ ds

/-- C6 counterexample input: the unit cube. -/
def unitBox : Aabb := ⟨⟨0, 0, 0⟩, ⟨1, 1, 1⟩⟩

/-- C7 counterexample input: a small box resting strictly above `bigBox`. -/
def stackedBoxA : Aabb := ⟨⟨1/2, 1/2, 3⟩, ⟨3/2, 3/2, 4⟩⟩

/-- C7 counterexample input: a 2×2×2 container at the origin. -/
def bigBoxB : Aabb := ⟨⟨0, 0, 0⟩, ⟨2, 2, 2⟩⟩

/-- C6 counterexample: on the unit cube, the inflation the code performs
differs from the symmetric 10% inflation the spec describes (the upper
corner moves out by 11% of the extent, not 10%). -/
theorem inflate_unit_box_mismatch :
    inflateAabb unitBox ≠ inflateAabbSpec unitBox ∧
    (inflateAabb unitBox).hi.x = 111/100 ∧
    (inflateAabbSpec unitBox).hi.x = 11/10 := by
  refine ⟨?_, by norm_num [inflateAabb, unitBox], by norm_num [inflateAabbSpec, unitBox]⟩
  intro h
  have := congrArg (fun b => b.hi.x) h
  norm_num [inflateAabb, inflateAabbSpec, unitBox] at this

/-- C6 amended: on each axis the code moves the minimum outward by exactly
10% of the original extent, and the maximum outward by 10% of the
distance from the already-shifted minimum to the original maximum,
i.e. by 11% of the original extent. -/
theorem inflate_characterization (b : Aabb) :
    inflateAabb b =
      ⟨⟨b.lo.x - (b.hi.x - b.lo.x) * (1/10),
        b.lo.y - (b.hi.y - b.lo.y) * (1/10),
        b.lo.z - (b.hi.z - b.lo.z) * (1/10)⟩,
       ⟨b.hi.x + (b.hi.x - b.lo.x) * (11/100),
        b.hi.y + (b.hi.y - b.lo.y) * (11/100),
        b.hi.z + (b.hi.z - b.lo.z) * (11/100)⟩⟩ := by
  simp only [inflateAabb, Aabb.mk.injEq, Vec3.mk.injEq]
  and_intros <;> ring_nf

/-- C7 counterexample: a small box resting strictly above an open
container.  The spec's clause (b) (center within the footprint, bottom
at or above the top) holds, but the code returns false because its
`above` branch requires the center inside the full box. -/
theorem inside_stacked_mismatch :
    insideGetValue stackedBoxA bigBoxB = false ∧
    insideSpecPred stackedBoxA bigBoxB = true := by
  constructor <;>
    norm_num [insideGetValue, insideSpecPred, aabbContainsPoint, aabbCenter,
      aabbVolume, aabbExtent, countExtentLe, stackedBoxA, bigBoxB]

/-- C7 amended: `Inside.get_value` returns true iff either (a) A's center
is within B's box, A's volume is strictly smaller, and at least two of
A's extents are ≤ B's, or (b) A's center is within B's box on all three
axes (not merely the footprint) and A's bottom is at or above B's top. -/
theorem inside_get_value_iff (A B : Aabb) :
    insideGetValue A B = true ↔
      ((aabbContainsPoint (aabbCenter A) B = true ∧
          aabbVolume A < aabbVolume B ∧
          2 ≤ countExtentLe (aabbExtent A) (aabbExtent B)) ∨
        (aabbContainsPoint (aabbCenter A) B = true ∧ B.hi.z ≤ A.lo.z)) := by
  simp [insideGetValue, Bool.and_eq_true, Bool.or_eq_true, decide_eq_true_iff]
  tauto

/-- C9: `ContactBodies.set_value` fails with the unsupported-operation
error for every argument, and the cached state is unchanged by the
failed call. -/
theorem contact_bodies_set_value_rejected {α : Type}
    (st : ContactBodiesState α) (v : α) :
    (contactBodiesSetValue st v).1 =
      Except.error (UnsupportedOperationError.setNotSupported
        "ContactBodies state currently does not support setting.") ∧
    (contactBodiesSetValue st v).2 = st :=
  ⟨rfl, rfl⟩

/-- C10: calling `set_value(False)` on a `Stained` state whose particle
system was never created raises (the `None` stain is dereferenced)
rather than acting as a no-op. -/
theorem stained_set_false_unloaded_raises (st : StainedState)
    (hstain : st.stain = none) :
    stainedSetValue st false =
      Except.error "AttributeError: NoneType object has no attribute particles" := by
  simp [stainedSetValue, hstain]

/-- C10 witness: the freshly constructed state (value false, stain never
created) raises on `set_value(False)`. -/
theorem stained_set_false_unloaded_raises_witness :
    stainedSetValue ⟨false, false, none⟩ false =
      Except.error "AttributeError: NoneType object has no attribute particles" :=
  stained_set_false_unloaded_raises ⟨false, false, none⟩ rfl


lemma sweepAll_cons (t : SceneObj) (ts : List SceneObj) (ps : List Particle) :
    sweepAll (t :: ts) ps = sweepAll ts (sweepTool t ps) := rfl

/-- The cleaning sweep, as a single pass: a particle ends inactive exactly
when it was inactive already or lies strictly inside the inflated AABB
of one of the tools; positions are untouched. -/
lemma sweepAll_eq_map (tools : List SceneObj) (ps : List Particle) :
    sweepAll tools ps = ps.map (fun p =>
      if p.active && tools.any
          (fun t => strictlyInsideAabb p.pos (inflateAabb t.aabb)) then
        stashParticle p
      else p) := by
  induction tools generalizing ps with
  | nil => simp [sweepAll]
  | cons t ts ih =>
      rw [sweepAll_cons, ih, sweepTool, List.map_map]
      refine List.map_congr_left fun p _ => ?_
      simp only [Function.comp_apply]
      cases hp : p.active with
      | false => simp [hp]
      | true =>
          cases hin : strictlyInsideAabb p.pos (inflateAabb t.aabb) with
          | false => simp [hp, hin]
          | true => simp [hp, hin, stashParticle]

lemma sweep_point (tools : List SceneObj) (p : Particle) :
    ((if p.active && tools.any
          (fun t => strictlyInsideAabb p.pos (inflateAabb t.aabb)) then
        stashParticle p else p).pos = p.pos) ∧
    (((if p.active && tools.any
          (fun t => strictlyInsideAabb p.pos (inflateAabb t.aabb)) then
        stashParticle p else p).active = true) ↔
      (p.active = true ∧ ∀ t ∈ tools,
        strictlyInsideAabb p.pos (inflateAabb t.aabb) = false)) := by
  cases hact : p.active <;>
    cases hin : tools.any (fun t => strictlyInsideAabb p.pos (inflateAabb t.aabb)) <;>
      simp_all [stashParticle, List.any_eq_true, List.any_eq_false]


/-- C1: while a `Stained` state's value is true (and its particle system is
loaded, in steady state so no reseeding occurs), `update` deactivates
exactly those active particles whose position is strictly inside the
inflated AABB of some scene object carrying the cleaning-tool state
whose soaked state is true; every other active particle stays active,
and no position changes. -/
theorem stained_update_cleans (s : StainedState) (scene : Scene)
    (fresh : List Particle) (rand : List Particle → List Particle)
    (ps : List Particle) (hval : s.value = true) (hprev : s.prev_value = true)
    (hstain : s.stain = some ps) :
    ∃ qs, (stainedUpdate s scene fresh rand).stain = some qs ∧
      qs.length = ps.length ∧
      ∀ i (hq : i < qs.length) (hp : i < ps.length),
        (qs.get ⟨i, hq⟩).pos = (ps.get ⟨i, hp⟩).pos ∧
        ((qs.get ⟨i, hq⟩).active = true ↔
          (ps.get ⟨i, hp⟩).active = true ∧
          ∀ t ∈ wetCleaningTools scene,
            strictlyInsideAabb (ps.get ⟨i, hp⟩).pos (inflateAabb t.aabb) = false) := by
  have hupd : (stainedUpdate s scene fresh rand).stain =
      some (sweepAll (wetCleaningTools scene) ps) := by
    simp [stainedUpdate, hval, hprev, hstain]
  rw [sweepAll_eq_map] at hupd
  refine ⟨_, hupd, by simp, ?_⟩
  intro i hq hp
  simp only [List.get_eq_getElem, List.getElem_map]
  exact sweep_point (wetCleaningTools scene) ps[i]


/-- C1 witness scene: a wet cleaning tool over the unit box, a dry cleaning
tool, and an object that is no tool at all. -/
def wScene : Scene :=
  ⟨[⟨true, some true, unitBox⟩,
    ⟨true, some false, ⟨⟨10, 10, 10⟩, ⟨12, 12, 12⟩⟩⟩,
    ⟨false, none, ⟨⟨20, 20, 20⟩, ⟨22, 22, 22⟩⟩⟩]⟩

/-- C1 witness particles: one inside the wet tool's box, one far away. -/
def wParts : List Particle := [⟨⟨1/2, 1/2, 1/2⟩, true⟩, ⟨⟨5, 5, 5⟩, true⟩]

/-- C1 witness state: stained, in steady state, particles loaded. -/
def wStained : StainedState := ⟨true, true, some wParts⟩

/-- C1 witness: the sweep characterisation applied to the concrete scene. -/
theorem stained_update_cleans_witness :
    wStained.value = true ∧ wStained.prev_value = true ∧
    wStained.stain = some wParts ∧
    (∃ qs, (stainedUpdate wStained wScene [] id).stain = some qs ∧
      qs.length = wParts.length ∧
      ∀ i (hq : i < qs.length) (hp : i < wParts.length),
        (qs.get ⟨i, hq⟩).pos = (wParts.get ⟨i, hp⟩).pos ∧
        ((qs.get ⟨i, hq⟩).active = true ↔
          (wParts.get ⟨i, hp⟩).active = true ∧
          ∀ t ∈ wetCleaningTools wScene,
            strictlyInsideAabb (wParts.get ⟨i, hp⟩).pos (inflateAabb t.aabb) = false)) :=
  ⟨rfl, rfl, rfl, stained_update_cleans wStained wScene [] id wParts rfl rfl rfl⟩

/-- C5: after an update of a `Dirty` state, or of a `Stained` state whose
value is true, the boolean value equals
`active_count > total_count * 0.9` with a strict comparison over the
updated particle population; in particular 90 active out of 100 total
yields false. -/
theorem clean_threshold_strict (d : DirtyState) (s : StainedState)
    (dscene sscene : Scene) (fresh : List Particle)
    (rand : List Particle → List Particle) (hval : s.value = true) :
    ((dirtyUpdate d dscene).value = true ↔
      ((numActive (dirtyUpdate d dscene).dust : ℚ) >
        ((dirtyUpdate d dscene).dust.length : ℚ) * (9/10))) ∧
    (∀ qs, (stainedUpdate s sscene fresh rand).stain = some qs →
      ((stainedUpdate s sscene fresh rand).value = true ↔
        ((numActive qs : ℚ) > (qs.length : ℚ) * (9/10)))) ∧
    ((dirtyUpdate d dscene).dust.length = 100 →
      numActive (dirtyUpdate d dscene).dust = 90 →
      (dirtyUpdate d dscene).value = false) := by
  have hv : (dirtyUpdate d dscene).value =
      thresholdValue (dirtyUpdate d dscene).dust := rfl
  refine ⟨?_, ?_, ?_⟩
  · rw [hv, thresholdValue, CLEAN_THRESHOLD]
    exact decide_eq_true_iff
  · intro qs hqs
    simp [stainedUpdate, hval] at hqs ⊢
    subst hqs
    rw [thresholdValue, CLEAN_THRESHOLD]
    exact decide_eq_true_iff
  · intro h100 h90
    rw [hv, thresholdValue, CLEAN_THRESHOLD, h100, h90]
    rw [decide_eq_false_iff_not]
    norm_num

/-- C5 witness population: 90 active and 10 inactive particles. -/
def wDust : List Particle :=
  List.replicate 90 ⟨⟨0, 0, 0⟩, true⟩ ++ List.replicate 10 ⟨⟨0, 0, 0⟩, false⟩

/-- C5 witness: in a scene with no cleaning tools, a dirty object with
90 of 100 particles active is reported clean after the update. -/
theorem clean_threshold_strict_witness :
    (dirtyUpdate ⟨true, wDust⟩ ⟨[]⟩).dust.length = 100 ∧
    numActive (dirtyUpdate ⟨true, wDust⟩ ⟨[]⟩).dust = 90 ∧
    (dirtyUpdate ⟨true, wDust⟩ ⟨[]⟩).value = false :=
  ⟨rfl, rfl,
    (clean_threshold_strict ⟨true, wDust⟩ ⟨true, true, some []⟩ ⟨[]⟩ ⟨[]⟩ [] id
        rfl).2.2 rfl rfl⟩


/-- The event pattern of the physics loop: `n` copies of
(substep, scheduler pass). -/
def substepPairs (n : ℕ) : List SimEvent :=
  (List.range n).flatMap
    (fun _ => [SimEvent.physicsSubstep, SimEvent.schedulerPass])

lemma substepPairs_succ (n : ℕ) :
    substepPairs (n + 1) =
      SimEvent.physicsSubstep :: SimEvent.schedulerPass :: substepPairs n := by
  simp only [substepPairs, List.range_succ_eq_map, List.flatMap_cons,
    List.flatMap_map]
  rfl

lemma simulatorStep_eq (r p : ℚ) (f : Option ℕ) :
    simulatorStep r p f =
      substepPairs (physicsTimestepNum r p f) ++ [SimEvent.renderSync] := rfl

lemma physicsTimestepNum_pos (r p : ℚ) (f : Option ℕ) :
    1 ≤ physicsTimestepNum r p f := by
  unfold physicsTimestepNum
  match f with
  | none => exact le_max_left 1 _
  | some k =>
      by_cases hk : k = 0
      · simp [hk]
      · simp [hk]
        omega

lemma substepPairs_count_scheduler (n : ℕ) :
    (substepPairs n).count SimEvent.schedulerPass = n := by
  induction n with
  | zero => rfl
  | succ m ih => simp [substepPairs_succ, ih, List.count_cons]

lemma substepPairs_count_physics (n : ℕ) :
    (substepPairs n).count SimEvent.physicsSubstep = n := by
  induction n with
  | zero => rfl
  | succ m ih => simp [substepPairs_succ, ih, List.count_cons]

lemma substepPairs_count_sync (n : ℕ) :
    (substepPairs n).count SimEvent.renderSync = 0 := by
  induction n with
  | zero => rfl
  | succ m ih => simp [substepPairs_succ, ih, List.count_cons]

lemma substepPairs_head (n : ℕ) (hn : 1 ≤ n) :
    (substepPairs n).head? = some SimEvent.physicsSubstep := by
  match n, hn with
  | m + 1, _ => rw [substepPairs_succ]; rfl

lemma substepPairs_chain (n : ℕ) (l : List SimEvent)
    (hl : List.Chain' (fun a b => b = SimEvent.schedulerPass →
        a = SimEvent.physicsSubstep) l)
    (hhead : l.head? ≠ some SimEvent.schedulerPass) :
    List.Chain' (fun a b => b = SimEvent.schedulerPass →
      a = SimEvent.physicsSubstep) (substepPairs n ++ l) := by
  induction n with
  | zero => simpa [substepPairs]
  | succ m ih =>
      rw [substepPairs_succ]
      refine List.Chain'.cons (fun _ => rfl) ?_
      rw [List.chain'_cons']
      refine ⟨?_, ih⟩
      intro y hy
      intro hys
      exfalso
      cases m with
      | zero =>
          simp [substepPairs] at hy
          cases l with
          | nil => simp at hy
          | cons a t =>
              simp at hy
              exact hhead (by simp [hy ▸ hys])
      | succ k =>
          rw [substepPairs_succ] at hy
          simp at hy
          subst hys
          simp at hy


/-- C8 counterexample: a step with `forced_timestep=2` runs the scheduler
pass twice, interleaved with the physics substeps (the pass at index 1
precedes the substep at index 2), not once after all substeps. -/
theorem simulator_step_pass_per_substep :
    simulatorStep (1/30) (1/120) (some 2) =
      [SimEvent.physicsSubstep, SimEvent.schedulerPass,
        SimEvent.physicsSubstep, SimEvent.schedulerPass,
        SimEvent.renderSync] ∧
    (simulatorStep (1/30) (1/120) (some 2)).count SimEvent.schedulerPass ≠ 1 := by
  constructor
  · rfl
  · intro h
    rw [simulatorStep_eq] at h
    have hn : physicsTimestepNum (1/30) (1/120) (some 2) = 2 := rfl
    rw [hn, List.count_append, substepPairs_count_scheduler] at h
    simp at h

/-- C8 amended: every `Simulator.step()` call runs one scheduler pass per
physics substep (`physics_timestep_num` passes in total, not one),
each pass immediately after its own substep; the renderer sync happens
exactly once, as the last event, so every pass still precedes it. -/
theorem simulator_step_schedule (r p : ℚ) (f : Option ℕ) :
    (simulatorStep r p f).count SimEvent.schedulerPass =
      physicsTimestepNum r p f ∧
    (simulatorStep r p f).count SimEvent.physicsSubstep =
      physicsTimestepNum r p f ∧
    (simulatorStep r p f).count SimEvent.renderSync = 1 ∧
    (simulatorStep r p f).getLast? = some SimEvent.renderSync ∧
    (simulatorStep r p f).head? = some SimEvent.physicsSubstep ∧
    List.Chain' (fun a b => b = SimEvent.schedulerPass →
      a = SimEvent.physicsSubstep) (simulatorStep r p f) := by
  rw [simulatorStep_eq]
  refine ⟨?_, ?_, ?_, ?_, ?_, ?_⟩
  · simp [List.count_append, substepPairs_count_scheduler]
  · simp [List.count_append, substepPairs_count_physics]
  · simp [List.count_append, substepPairs_count_sync]
  · exact List.getLast?_concat _
  · obtain ⟨m, hm⟩ : ∃ m, physicsTimestepNum r p f = m + 1 :=
      ⟨physicsTimestepNum r p f - 1, by
        have := physicsTimestepNum_pos r p f; omega⟩
    rw [hm, substepPairs_succ]
    rfl
  · exact substepPairs_chain _ _ (by simp) (by simp)


lemma reachDep_mono {P : Type} (reg : Registry P)
    (init₁ init₂ : List StateName)
    (h : ∀ b ∈ init₁, ReachDep reg init₂ b) {s : StateName}
    (hs : ReachDep reg init₁ s) : ReachDep reg init₂ s := by
  induction hs with
  | base hb => exact h _ hb
  | step _ hd ih => exact ReachDep.step ih hd

lemma prepareLoop_acc_sub {P : Type} (reg : Registry P) :
    ∀ fuel (q : List (StateName × P)) acc keys,
      prepareLoop reg fuel q acc = some keys → ∀ x ∈ acc, x ∈ keys := by
  intro fuel
  induction fuel with
  | zero =>
      intro q acc keys h x hx
      cases q with
      | nil => simp only [prepareLoop, Option.some_inj] at h; exact h ▸ hx
      | cons e rest => simp [prepareLoop] at h
  | succ m ih =>
      intro q acc keys h x hx
      cases q with
      | nil => simp only [prepareLoop, Option.some_inj] at h; exact h ▸ hx
      | cons e rest =>
          obtain ⟨s₀, p₀⟩ := e
          simp only [prepareLoop] at h
          refine ih _ _ _ h x ?_
          by_cases hc : s₀ ∈ acc <;> simp [hc, hx]

lemma prepareLoop_queue_sub {P : Type} (reg : Registry P) :
    ∀ fuel (q : List (StateName × P)) acc keys,
      prepareLoop reg fuel q acc = some keys → ∀ e ∈ q, e.1 ∈ keys := by
  intro fuel
  induction fuel with
  | zero =>
      intro q acc keys h e he
      cases q with
      | nil => simp at he
      | cons e₀ rest => simp [prepareLoop] at h
  | succ m ih =>
      intro q acc keys h e he
      cases q with
      | nil => simp at he
      | cons e₀ rest =>
          obtain ⟨s₀, p₀⟩ := e₀
          simp only [prepareLoop] at h
          rcases List.mem_cons.mp he with heq | he'
          · subst heq
            refine prepareLoop_acc_sub reg _ _ _ _ h s₀ ?_
            by_cases hc : s₀ ∈ acc <;> simp [hc]
          · exact ih _ _ _ h e (List.mem_append_left _ he')

lemma prepareLoop_closed {P : Type} (reg : Registry P) :
    ∀ fuel (q : List (StateName × P)) acc keys,
      prepareLoop reg fuel q acc = some keys →
      ∀ s ∈ keys, s ∉ acc → ∀ d ∈ reg.deps s, d ∈ keys := by
  intro fuel
  induction fuel with
  | zero =>
      intro q acc keys h s hs hacc d hd
      cases q with
      | nil =>
          simp only [prepareLoop, Option.some_inj] at h
          exact absurd (h ▸ hs) hacc
      | cons e rest => simp [prepareLoop] at h
  | succ m ih =>
      intro q acc keys h s hs hacc d hd
      cases q with
      | nil =>
          simp only [prepareLoop, Option.some_inj] at h
          exact absurd (h ▸ hs) hacc
      | cons e₀ rest =>
          obtain ⟨s₀, p₀⟩ := e₀
          simp only [prepareLoop] at h
          by_cases hs₀ : s = s₀
          · subst hs₀
            refine prepareLoop_queue_sub reg _ _ _ _ h (d, reg.emptyParams) ?_
            exact List.mem_append_right _ (List.mem_map_of_mem _ hd)
          · refine ih _ _ _ h s hs ?_ d hd
            by_cases hc : s₀ ∈ acc <;> simp [hc, hacc, hs₀]

lemma prepareLoop_sound {P : Type} (reg : Registry P) :
    ∀ fuel (q : List (StateName × P)) acc keys,
      prepareLoop reg fuel q acc = some keys →
      ∀ s ∈ keys, s ∈ acc ∨ ReachDep reg (q.map Prod.fst) s := by
  intro fuel
  induction fuel with
  | zero =>
      intro q acc keys h s hs
      cases q with
      | nil =>
          simp only [prepareLoop, Option.some_inj] at h
          exact Or.inl (h ▸ hs)
      | cons e rest => simp [prepareLoop] at h
  | succ m ih =>
      intro q acc keys h s hs
      cases q with
      | nil =>
          simp only [prepareLoop, Option.some_inj] at h
          exact Or.inl (h ▸ hs)
      | cons e₀ rest =>
          obtain ⟨s₀, p₀⟩ := e₀
          simp only [prepareLoop] at h
          rcases ih _ _ _ h s hs with h' | h'
          · by_cases hc : s₀ ∈ acc
            · exact Or.inl (by simpa [hc] using h')
            · have h'' : s ∈ acc ++ [s₀] := by simpa [hc] using h'
              rcases List.mem_append.mp h'' with ha | hs'
              · exact Or.inl ha
              · refine Or.inr (ReachDep.base ?_)
                rw [List.map_cons]
                simp at hs'
                simp [hs']
          · refine Or.inr (reachDep_mono reg _ _ ?_ h')
            intro b hb
            rw [List.map_append] at hb
            rcases List.mem_append.mp hb with hb | hb
            · refine ReachDep.base (s := b) ?_
              rw [List.map_cons]
              exact List.mem_cons_of_mem _ hb
            · refine ReachDep.step (s := s₀)
                (ReachDep.base (by rw [List.map_cons]; exact List.mem_cons_self _ _)) ?_
              simp only [List.map_map] at hb
              simpa using hb

lemma prepareLoop_nodup {P : Type} (reg : Registry P) :
    ∀ fuel (q : List (StateName × P)) acc keys,
      prepareLoop reg fuel q acc = some keys → acc.Nodup → keys.Nodup := by
  intro fuel
  induction fuel with
  | zero =>
      intro q acc keys h hnd
      cases q with
      | nil => simp only [prepareLoop, Option.some_inj] at h; exact h ▸ hnd
      | cons e rest => simp [prepareLoop] at h
  | succ m ih =>
      intro q acc keys h hnd
      cases q with
      | nil => simp only [prepareLoop, Option.some_inj] at h; exact h ▸ hnd
      | cons e₀ rest =>
          obtain ⟨s₀, p₀⟩ := e₀
          simp only [prepareLoop] at h
          refine ih _ _ _ h ?_
          by_cases hc : s₀ ∈ acc
          · simpa [hc] using hnd
          · have : (acc ++ [s₀]).Nodup := by
              refine List.Nodup.append hnd (List.nodup_singleton s₀) ?_
              intro x hx hx'
              simp at hx'
              subst hx'
              exact hc hx
            simpa [hc] using this

lemma prepareLoop_complete {P : Type} (reg : Registry P) (fuel : ℕ)
    (q : List (StateName × P)) (keys : List StateName)
    (h : prepareLoop reg fuel q [] = some keys) :
    ∀ s, ReachDep reg (q.map Prod.fst) s → s ∈ keys := by
  intro s hs
  induction hs with
  | base hb =>
      obtain ⟨e, he, heq⟩ := List.mem_map.mp hb
      exact heq ▸ prepareLoop_queue_sub reg _ _ _ _ h e he
  | step _ hd ih =>
      exact prepareLoop_closed reg _ _ _ _ h _ ih (by simp) _ hd


lemma initialWorklist_names {P : Type} (reg : Registry P)
    (abilities : List (StateName × P)) :
    (initialWorklist reg abilities).map Prod.fst =
      reg.defaults ++ abilities.flatMap (fun ap => reg.abilityStates ap.1) := by
  simp [initialWorklist, List.map_flatMap, List.map_map, Function.comp_def]

/-- C2: whenever `prepare_object_states` finishes, the key set of the
resulting state map is exactly the default states, the states implied
by the declared abilities, and the transitive closure of required
dependencies (`ReachDep` over those seeds); the map holds at most one
instance per identifier (the key list has no duplicates); and a second
run with the same abilities yields the same key set. -/
theorem prepare_object_states_key_set {P : Type} (reg : Registry P)
    (abilities : List (StateName × P)) (fuel : ℕ) (keys : List StateName)
    (h : prepareObjectStates reg abilities fuel = some keys) :
    (∀ s, s ∈ keys ↔
      ReachDep reg
        (reg.defaults ++ abilities.flatMap (fun ap => reg.abilityStates ap.1)) s) ∧
    keys.Nodup ∧
    ∀ keys', prepareObjectStates reg abilities fuel = some keys' →
      keys' = keys := by
  refine ⟨fun s => ⟨?_, ?_⟩, ?_, ?_⟩
  · intro hs
    rcases prepareLoop_sound reg fuel _ [] keys h s hs with h' | h'
    · simp at h'
    · rw [initialWorklist_names] at h'
      exact h'
  · intro hr
    refine prepareLoop_complete reg fuel _ keys h s ?_
    rw [initialWorklist_names]
    exact hr
  · exact prepareLoop_nodup reg fuel _ [] keys h List.nodup_nil
  · intro keys' h'
    rw [h] at h'
    exact (Option.some_inj.mp h').symm

/-- C2 witness registry: one default state, one ability mapping to a state
with one required dependency. -/
def wReg : Registry Unit where
  defaults := ["onTop"]
  abilityStates := fun a => if a = "dustable" then ["dirty"] else []
  deps := fun s => if s = "dirty" then ["aabb"] else []
  emptyParams := ()

/-- C2 witness abilities: the object is dustable. -/
def wAbilities : List (StateName × Unit) := [("dustable", ())]

/-- C2 witness: the run terminates with keys `onTop`, `dirty`, `aabb` —
the default, the ability-implied state, and its required dependency —
and the key-set characterisation holds at `aabb`. -/
theorem prepare_object_states_key_set_witness :
    prepareObjectStates wReg wAbilities 10 = some ["onTop", "dirty", "aabb"] ∧
    ("aabb" ∈ ["onTop", "dirty", "aabb"] ↔
      ReachDep wReg
        (wReg.defaults ++ wAbilities.flatMap (fun ap => wReg.abilityStates ap.1))
        "aabb") ∧
    (["onTop", "dirty", "aabb"] : List StateName).Nodup :=
  ⟨rfl,
    (prepare_object_states_key_set wReg wAbilities 10 _ rfl).1 "aabb",
    (prepare_object_states_key_set wReg wAbilities 10 _ rfl).2.1⟩


lemma topoLoop_nil (fuel : ℕ) (out : List StateName) :
    topoLoop fuel [] out = some out := by
  cases fuel <;> rfl

lemma topoLoop_zero_cons (e : StateName × List StateName) (rest : DepGraph)
    (out : List StateName) : topoLoop 0 (e :: rest) out = none := rfl

lemma topoLoop_succ_cons_none (m : ℕ) (e : StateName × List StateName)
    (rest : DepGraph) (out : List StateName)
    (hf : (e :: rest).find? (readyEntry out) = none) :
    topoLoop (m + 1) (e :: rest) out = none := by
  show (match (e :: rest).find? (readyEntry out) with
        | none => none
        | some pick =>
            topoLoop m ((e :: rest).filter (fun x => x.1 ≠ pick.1))
              (out ++ [pick.1])) = (none : Option (List StateName))
  rw [hf]

lemma topoLoop_succ_cons_some (m : ℕ) (e : StateName × List StateName)
    (rest : DepGraph) (out : List StateName) (pick : StateName × List StateName)
    (hf : (e :: rest).find? (readyEntry out) = some pick) :
    topoLoop (m + 1) (e :: rest) out =
      topoLoop m ((e :: rest).filter (fun x => x.1 ≠ pick.1))
        (out ++ [pick.1]) := by
  show (match (e :: rest).find? (readyEntry out) with
        | none => none
        | some pick =>
            topoLoop m ((e :: rest).filter (fun x => x.1 ≠ pick.1))
              (out ++ [pick.1])) = _
  rw [hf]

lemma key_nodup_eq (g : DepGraph) (hnd : (g.map Prod.fst).Nodup)
    {e₁ e₂ : StateName × List StateName} (h₁ : e₁ ∈ g) (h₂ : e₂ ∈ g)
    (hk : e₁.1 = e₂.1) : e₁ = e₂ := by
  induction g with
  | nil => simp at h₁
  | cons x xs ih =>
      rw [List.map_cons, List.nodup_cons] at hnd
      rcases List.mem_cons.mp h₁ with h₁' | h₁' <;>
        rcases List.mem_cons.mp h₂ with h₂' | h₂'
      · rw [h₁', h₂']
      · exfalso
        refine hnd.1 ?_
        rw [show x.1 = e₂.1 from h₁' ▸ hk]
        exact List.mem_map_of_mem Prod.fst h₂'
      · exfalso
        refine hnd.1 ?_
        rw [show x.1 = e₁.1 from h₂' ▸ hk.symm]
        exact List.mem_map_of_mem Prod.fst h₁'
      · exact ih hnd.2 h₁' h₂'


/-- Invariant proof for the sort loop: when it returns an order, that order
has no duplicates, covers every registered entry, and places every
dependency strictly before its dependent (as the two-element sublist
`[d, s]`). -/
lemma topoLoop_spec (g : DepGraph) (hnd : (g.map Prod.fst).Nodup) :
    ∀ fuel (remaining : DepGraph) (out order : List StateName),
      topoLoop fuel remaining out = some order →
      (∀ e ∈ remaining, e ∈ g) →
      (∀ e ∈ g, e.1 ∈ out ∨ e.1 ∈ remaining.map Prod.fst) →
      (∀ k ∈ remaining.map Prod.fst, k ∉ out) →
      out.Nodup →
      (∀ e ∈ g, e.1 ∈ out → ∀ d ∈ e.2, [d, e.1].Sublist out) →
      (order.Nodup ∧ (∀ e ∈ g, e.1 ∈ order) ∧
        ∀ e ∈ g, ∀ d ∈ e.2, [d, e.1].Sublist order) := by
  intro fuel
  induction fuel with
  | zero =>
      intro remaining out order h hsub hcover hdisj hout hpairs
      cases remaining with
      | nil =>
          rw [topoLoop_nil, Option.some_inj] at h
          subst h
          refine ⟨hout, fun e he => (hcover e he).resolve_right (by simp), ?_⟩
          exact fun e he d hd =>
            hpairs e he ((hcover e he).resolve_right (by simp)) d hd
      | cons e₀ rest => rw [topoLoop_zero_cons] at h; exact absurd h (by simp)
  | succ m ih =>
      intro remaining out order h hsub hcover hdisj hout hpairs
      cases remaining with
      | nil =>
          rw [topoLoop_nil, Option.some_inj] at h
          subst h
          refine ⟨hout, fun e he => (hcover e he).resolve_right (by simp), ?_⟩
          exact fun e he d hd =>
            hpairs e he ((hcover e he).resolve_right (by simp)) d hd
      | cons e₀ rest =>
          cases hf : (e₀ :: rest).find? (readyEntry out) with
          | none =>
              rw [topoLoop_succ_cons_none m e₀ rest out hf] at h
              exact absurd h (by simp)
          | some pick =>
              rw [topoLoop_succ_cons_some m e₀ rest out pick hf] at h
              have hpick_mem : pick ∈ e₀ :: rest := List.mem_of_find?_eq_some hf
              have hready : readyEntry out pick = true := List.find?_some hf
              have hpickg : pick ∈ g := hsub pick hpick_mem
              have hpick_not_out : pick.1 ∉ out :=
                hdisj pick.1 (List.mem_map_of_mem Prod.fst hpick_mem)
              refine ih _ _ _ h ?_ ?_ ?_ ?_ ?_
              · intro e he
                exact hsub e (List.mem_of_mem_filter he)
              · intro e he
                rcases hcover e he with h' | h'
                · exact Or.inl (List.mem_append_left _ h')
                · obtain ⟨x, hx, hxe⟩ := List.mem_map.mp h'
                  by_cases hxp : x.1 = pick.1
                  · refine Or.inl (List.mem_append_right _ ?_)
                    simp [← hxe, hxp]
                  · refine Or.inr ?_
                    refine List.mem_map.mpr ⟨x, ?_, hxe⟩
                    exact List.mem_filter.mpr ⟨hx, by simp [hxp]⟩
              · intro k hk
                obtain ⟨x, hx, hxe⟩ := List.mem_map.mp hk
                have hx' := List.mem_filter.mp hx
                have hk_not_out : k ∉ out := by
                  refine hdisj k ?_
                  exact List.mem_map.mpr ⟨x, hx'.1, hxe⟩
                intro hmem
                rcases List.mem_append.mp hmem with hmem | hmem
                · exact hk_not_out hmem
                · have : x.1 ≠ pick.1 := by simpa using hx'.2
                  simp at hmem
                  exact this (hxe ▸ hmem)
              · refine List.Nodup.append hout (List.nodup_singleton _) ?_
                intro a ha ha'
                simp at ha'
                subst ha'
                exact hpick_not_out ha
              · intro e he hmem d hd
                rcases List.mem_append.mp hmem with hmem | hmem
                · exact (hpairs e he hmem d hd).trans
                    (List.sublist_append_left _ _)
                · simp at hmem
                  have hepick : e = pick := key_nodup_eq g hnd he hpickg hmem
                  subst hepick
                  have hdout : d ∈ out := by
                    have := List.all_eq_true.mp hready d hd
                    simpa using this
                  have h1 : List.Sublist [d] out :=
                    List.singleton_sublist.mpr hdout
                  exact h1.append (List.Sublist.refl [e.1])


lemma sublist_pair_indexOf {a b : StateName} :
    ∀ l : List StateName, List.Sublist [a, b] l → l.Nodup →
      l.indexOf a < l.indexOf b := by
  intro l
  induction l with
  | nil =>
      intro h _
      have := List.eq_nil_of_sublist_nil h
      simp at this
  | cons x xs ih =>
      intro h hnd
      rw [List.nodup_cons] at hnd
      cases h with
      | cons _ h' =>
          have ha : a ∈ xs := h'.subset (by simp)
          have hb : b ∈ xs := h'.subset (by simp)
          have hax : x ≠ a := fun he => hnd.1 (he ▸ ha)
          have hbx : x ≠ b := fun he => hnd.1 (he ▸ hb)
          rw [List.indexOf_cons_ne _ hax, List.indexOf_cons_ne _ hbx]
          exact Nat.succ_lt_succ (ih h' hnd.2)
      | cons₂ _ h' =>
          have hb : b ∈ xs := h'.subset (by simp)
          have hba : a ≠ b := fun he => hnd.1 (he ▸ hb)
          rw [List.indexOf_cons_self, List.indexOf_cons_ne _ hba]
          exact Nat.succ_pos _

/-- C4: if the registered dependency relation has a cycle — some state
reachable from itself through one or more `dependsOn` edges — then
`get_states_by_dependency_order` fails (models the spec's
`CyclicDependencyError`) and returns no order at all. -/
theorem dependency_cycle_fails (g : DepGraph)
    (hnd : ((withDepNodes g).map Prod.fst).Nodup) (a : StateName)
    (hcyc : Relation.TransGen (dependsOn g) a a) :
    getStatesByDependencyOrder g = none := by
  cases h : getStatesByDependencyOrder g with
  | none => rfl
  | some order =>
      exfalso
      have hspec := topoLoop_spec (withDepNodes g) hnd
          (withDepNodes g).length (withDepNodes g) [] order h
          (fun e he => he)
          (fun e he => Or.inr (List.mem_map_of_mem Prod.fst he))
          (fun k _ hk => by simp at hk)
          List.nodup_nil
          (fun e _ he => by simp at he)
      have hedge : ∀ s d, dependsOn g s d →
          order.indexOf d < order.indexOf s := by
        intro s d hsd
        obtain ⟨ds, hmem, hd⟩ := hsd
        exact sublist_pair_indexOf order
          (hspec.2.2 (s, ds) (List.mem_append_left _ hmem) d hd) hspec.1
      have key : ∀ t, Relation.TransGen (dependsOn g) a t →
          order.indexOf t < order.indexOf a := by
        intro t ht
        induction ht with
        | single h₁ => exact hedge _ _ h₁
        | tail _ h₂ ih => exact (hedge _ _ h₂).trans ih
      exact lt_irrefl _ (key a hcyc)

/-- C4 witness graph: the two-cycle `A` requires `B` requires `A` from the
spec's own example. -/
def wCycleGraph : DepGraph := [("A", ["B"]), ("B", ["A"])]

/-- C4 witness: on the cyclic graph the order construction fails with
`none`. -/
theorem dependency_cycle_fails_witness :
    getStatesByDependencyOrder wCycleGraph = none :=
  dependency_cycle_fails wCycleGraph (by decide) "A"
    (Relation.TransGen.tail
      (Relation.TransGen.single
        (show dependsOn wCycleGraph "A" "B" from ⟨["B"], by decide, by decide⟩))
      (show dependsOn wCycleGraph "B" "A" from ⟨["A"], by decide, by decide⟩))


lemma mem_withDepNodes_of_mem (g : DepGraph) {e : StateName × List StateName}
    (he : e ∈ g) : e ∈ withDepNodes g :=
  List.mem_append_left _ he

/-- C3: whenever `get_states_by_dependency_order` returns an order, every
dependency — required or optional — of every registered state appears
strictly before that state in it (the pair `[dependency, state]` is a
sublist of the duplicate-free order). -/
theorem dependency_order_sound (g : DepGraph)
    (hnd : ((withDepNodes g).map Prod.fst).Nodup) (order : List StateName)
    (h : getStatesByDependencyOrder g = some order) :
    order.Nodup ∧
    ∀ s ds, (s, ds) ∈ g → ∀ d ∈ ds, [d, s].Sublist order := by
  have hspec := topoLoop_spec (withDepNodes g) hnd
      (withDepNodes g).length (withDepNodes g) [] order h
      (fun e he => he)
      (fun e he => Or.inr (List.mem_map_of_mem Prod.fst he))
      (fun k _ hk => by simp at hk)
      List.nodup_nil
      (fun e _ he => by simp at he)
  refine ⟨hspec.1, ?_⟩
  intro s ds hsd d hd
  exact hspec.2.2 (s, ds) (mem_withDepNodes_of_mem g hsd) d hd

/-- C3 witness graph: `dirty` requires `aabb`. -/
def wGraph : DepGraph := [("dirty", ["aabb"])]

/-- C3 witness: on the concrete graph the computed order is
`[aabb, dirty]`, and the dependency `aabb` comes strictly before
`dirty`. -/
theorem dependency_order_sound_witness :
    getStatesByDependencyOrder wGraph = some ["aabb", "dirty"] ∧
    (["aabb", "dirty"] : List StateName).Nodup ∧
    List.Sublist ["aabb", "dirty"] ["aabb", "dirty"] :=
  ⟨rfl,
    (dependency_order_sound wGraph (by decide) ["aabb", "dirty"] rfl).1,
    (dependency_order_sound wGraph (by decide) ["aabb", "dirty"] rfl).2
      "dirty" ["aabb"] (by decide) "aabb" (by decide)⟩


end IGibson
